import Mathlib

/-!
Verification development for the Obsidian selection-tracking plugin
(`src/obsidian/workspace-manager.ts` and the CodeMirror selection-highlight
extension).

The embedding models documents as lists of lines (`List (List Char)`, one
entry per line, newline separators implicit), CodeMirror's transaction state
as linear character offsets into the joined document, and the Obsidian
workspace/editor objects as plain records.  Fallible accesses (the
`(editor as any).cm` duck-typed access that may throw, a destroyed view's
editor) are modelled with `Option`.
-/

/-- LSP-style position: 0-based line and character, as produced by the
manager's selection ranges (`{ line, character }` literals in the source). -/
structure Position where
  line : Nat
  character : Nat
deriving DecidableEq, Repr

/-- `SelectionRange` from `src/mcp/types`: start/end positions plus the
`isEmpty` flag. -/
structure SelectionRange where
  start : Position
  «end» : Position
  isEmpty : Bool
deriving DecidableEq, Repr

/-- A CodeMirror `Line` as used by the source: `number` is 1-based,
`from` is the linear offset of the line's first character. -/
structure Line where
  number : Nat
  «from» : Nat
deriving DecidableEq, Repr

/-- Join a list of lines into the full document text, separating lines with
a newline character (the inverse of splitting a document on newlines). -/
def joinLines : List (List Char) → List Char
  | [] => []
  | [l] => l
  | l :: l' :: rest => l ++ '\n' :: joinLines (l' :: rest)

/-- `doc.length` of a CodeMirror document given as its list of lines. -/
def docLength (ls : List (List Char)) : Nat :=
  (joinLines ls).length

/-- `doc.sliceString(from, to)`: the characters at offsets `f ≤ i < t`. -/
def sliceString (doc : List Char) (f t : Nat) : List Char :=
  (doc.drop f).take (t - f)

/-- Offset of the first character of (0-based) line `k`: each earlier line
contributes its length plus one newline. -/
def lineStart : List (List Char) → Nat → Nat
  | _, 0 => 0
  | [], _ + 1 => 0
  | l :: rest, k + 1 => l.length + 1 + lineStart rest k

/-- Worker for `lineAt`: walk the lines accumulating the 1-based line
number and the line's starting offset; a position belongs to line `k`
when it is at most that line's end offset (the position just after the
line's last character still belongs to it); positions past the end of the
document resolve to the last line. -/
def lineAtGo : List (List Char) → Nat → Nat → Nat → Line
  | [], num, base, _ => ⟨num, base⟩
  | [_], num, base, _ => ⟨num, base⟩
  | l :: l' :: rest, num, base, p =>
    if p ≤ base + l.length then ⟨num, base⟩
    else lineAtGo (l' :: rest) (num + 1) (base + l.length + 1) p

/-- CodeMirror's `doc.lineAt(p)`: the line containing offset `p`. -/
def lineAt (lines : List (List Char)) (p : Nat) : Line :=
  lineAtGo lines 1 0 p

/-- The part of a CodeMirror `EditorState` the source reads:
the document (`state.doc`, as lines) and the main selection's linear
offsets `state.selection.main.from` / `.to`.  CodeMirror's
`mainSelection.empty` is `from == to`. -/
structure CMState where
  lines : List (List Char)
  selFrom : Nat
  selTo : Nat
deriving DecidableEq, Repr

/-- Well-formedness CodeMirror guarantees for a live state: a document has
at least one line and the main selection's offsets are ordered and inside
the document. -/
def CMWf (st : CMState) : Prop :=
  st.lines ≠ [] ∧ st.selFrom ≤ st.selTo ∧ st.selTo ≤ docLength st.lines

/-- Obsidian `EditorPosition`: 0-based `line` and `ch`. -/
structure EditorPosition where
  line : Nat
  ch : Nat
deriving DecidableEq, Repr

/-- The Obsidian `Editor` abstraction the source touches: the duck-typed
`(editor as any).cm` CodeMirror view (whose access path may throw, hence
`Option`), plus the plain accessor's document and selection endpoints
(`anchor`/`head`), from which `getSelection` / `getCursor` are derived. -/
structure Editor where
  cm : Option CMState
  lines : List (List Char)
  anchor : EditorPosition
  head : EditorPosition
deriving DecidableEq, Repr

/-- `editor.getCursor("from")`: the earlier (in document order) of anchor
and head. -/
def cursorFrom (ed : Editor) : EditorPosition :=
  if ed.anchor.line < ed.head.line ∨
      (ed.anchor.line = ed.head.line ∧ ed.anchor.ch ≤ ed.head.ch) then
    ed.anchor
  else
    ed.head

/-- `editor.getCursor("to")`: the later (in document order) of anchor and
head. -/
def cursorTo (ed : Editor) : EditorPosition :=
  if ed.anchor.line < ed.head.line ∨
      (ed.anchor.line = ed.head.line ∧ ed.anchor.ch ≤ ed.head.ch) then
    ed.head
  else
    ed.anchor

/-- `editor.getCursor()` with no argument: the head position. -/
def getCursor (ed : Editor) : EditorPosition :=
  ed.head

/-- Linear offset of an editor position in the document. -/
def offsetOfPos (lines : List (List Char)) (p : EditorPosition) : Nat :=
  lineStart lines p.line + p.ch

/-- `editor.getSelection()`: the text between the `from` and `to` cursors. -/
def getSelection (ed : Editor) : List Char :=
  sliceString (joinLines ed.lines)
    (offsetOfPos ed.lines (cursorFrom ed))
    (offsetOfPos ed.lines (cursorTo ed))

/-- The selected text computed on the transaction-state path
(`hasSelection ? state.doc.sliceString(from, to) : ""`). -/
def txText (st : CMState) : List Char :=
  if st.selFrom ≠ st.selTo then
    sliceString (joinLines st.lines) st.selFrom st.selTo
  else
    []

/-- The `SelectionRange` computed on the transaction-state path: linear
offsets converted to `(line, character)` via `lineAt`, with `fromLine.number
- 1` and `from - fromLine.from` (resp. `to`); when the selection is empty
both endpoints are the converted `from` offset and `isEmpty` is `true`. -/
def txRange (st : CMState) : SelectionRange :=
  if st.selFrom ≠ st.selTo then
    { start := ⟨(lineAt st.lines st.selFrom).number - 1,
                st.selFrom - (lineAt st.lines st.selFrom).«from»⟩,
      «end» := ⟨(lineAt st.lines st.selTo).number - 1,
                st.selTo - (lineAt st.lines st.selTo).«from»⟩,
      isEmpty := false }
  else
    { start := ⟨(lineAt st.lines st.selFrom).number - 1,
                st.selFrom - (lineAt st.lines st.selFrom).«from»⟩,
      «end» := ⟨(lineAt st.lines st.selFrom).number - 1,
                st.selFrom - (lineAt st.lines st.selFrom).«from»⟩,
      isEmpty := true }

/-- The `catch` fallback read through the plain editor accessor: text from
`editor.getSelection()`; when it is non-empty the range runs from
`getCursor("from")` to `getCursor("to")` with `isEmpty = false`, otherwise
both endpoints are `getCursor()` with `isEmpty = true`. -/
def plainRead (ed : Editor) : List Char × SelectionRange :=
  let cursor := getCursor ed
  let selection := getSelection ed
  if selection.length > 0 then
    (selection,
      { start := ⟨(cursorFrom ed).line, (cursorFrom ed).ch⟩,
        «end» := ⟨(cursorTo ed).line, (cursorTo ed).ch⟩,
        isEmpty := false })
  else
    (selection,
      { start := ⟨cursor.line, cursor.ch⟩,
        «end» := ⟨cursor.line, cursor.ch⟩,
        isEmpty := true })

/-- A `MarkdownView`: the source only touches its `editor` property (which
may be unusable on a destroyed view, hence `Option`). -/
structure MarkdownView where
  editor : Option Editor
deriving DecidableEq, Repr

/-- `CachedSelectionState` from the source, with `view` the cached
`MarkdownView` reference and `timestamp` the `Date.now()` value. -/
structure CachedSelectionState where
  text : List Char
  filePath : String
  fileUrl : String
  selection : SelectionRange
  view : MarkdownView
  timestamp : Nat
deriving DecidableEq, Repr

/-- The workspace facts the manager queries: `getActiveViewOfType
(MarkdownView)`, `getActiveFile()` (as its path), and the vault's base
path used for absolute paths. -/
structure Workspace where
  activeViewMd : Option MarkdownView
  activeFile : Option String
  basePath : String
deriving DecidableEq, Repr

/-- The snapshot returned by `getCurrentSelection`. -/
structure SelectionSnapshot where
  text : List Char
  filePath : String
  selection : SelectionRange
  fromCache : Bool
deriving DecidableEq, Repr

/-- Modelled from the spec: `getAbsolutePath` lives in `src/obsidian/utils`,
which is not part of the provided sources; per the spec the absolute path is
computed by joining the workspace root with the workspace-relative path. -/
def getAbsolutePath (relativePath basePath : String) : String :=
  basePath ++ "/" ++ relativePath

/-- The live read inside `getCurrentSelection`'s `activeView` branch:
try the CodeMirror transaction state, fall back to the plain accessor on
failure; both return `fromCache = false`. -/
def liveRead (ed : Editor) (path : String) : SelectionSnapshot :=
  match ed.cm with
  | some st => ⟨txText st, path, txRange st, false⟩
  | none => ⟨(plainRead ed).1, path, (plainRead ed).2, false⟩

/-- The cache branch of `getCurrentSelection`: attempt a fresh
transaction-state read through the cached view reference (`fromCache =
false` on success); on failure return the stored cache fields verbatim
with `fromCache = true`. -/
def cacheRead (c : CachedSelectionState) : SelectionSnapshot :=
  match c.view.editor with
  | some ed =>
    match ed.cm with
    | some st => ⟨txText st, c.filePath, txRange st, false⟩
    | none => ⟨c.text, c.filePath, c.selection, true⟩
  | none => ⟨c.text, c.filePath, c.selection, true⟩

/-- `WorkspaceManager.getCurrentSelection`: live read when the active
`MarkdownView` has an editor and a file is active (otherwise fall through),
then the cache branch, then `null`. -/
def getCurrentSelection (ws : Workspace) (cache : Option CachedSelectionState) :
    Option SelectionSnapshot :=
  match ws.activeViewMd with
  | some v =>
    match v.editor, ws.activeFile with
    | some ed, some path => some (liveRead ed path)
    | _, _ => cache.map cacheRead
  | none => cache.map cacheRead

/-- `getCurrentSelection` as a state transformer on the manager's
`cachedSelectionState` slot.  The method body reads the slot but contains
no assignment to it, so the slot is returned unchanged. -/
def getCurrentSelectionStep (ws : Workspace) (cache : Option CachedSelectionState) :
    Option SelectionSnapshot × Option CachedSelectionState :=
  (getCurrentSelection ws cache, cache)

/-- `SelectionChangedParams` from `src/mcp/types`. -/
structure SelectionChangedParams where
  text : List Char
  filePath : Option String
  fileUrl : Option String
  selection : SelectionRange
deriving DecidableEq, Repr

/-- The "no selection available" params built by `sendCurrentFileContext`'s
else branch: empty text, the active file's path (or null), and the
zero-width empty range at (0,0). -/
def noSelParams (ws : Workspace) : SelectionChangedParams :=
  { text := [],
    filePath := ws.activeFile,
    fileUrl := ws.activeFile.map (fun p => "file://" ++ getAbsolutePath p ws.basePath),
    selection := { start := ⟨0, 0⟩, «end» := ⟨0, 0⟩, isEmpty := true } }

/-- `WorkspaceManager.sendCurrentFileContext`: shape the broadcast params
from `getCurrentSelection()`.  The guard is the JS truthiness test
`currentSelection && currentSelection.filePath` (an empty-string path is
falsy). -/
def sendCurrentFileContext (ws : Workspace) (cache : Option CachedSelectionState) :
    SelectionChangedParams :=
  match getCurrentSelection ws cache with
  | some s =>
    if s.filePath ≠ "" then
      { text := s.text,
        filePath := some s.filePath,
        fileUrl := some ("file://" ++ getAbsolutePath s.filePath ws.basePath),
        selection := s.selection }
    else
      noSelParams ws
  | none => noSelParams ws

/-- `WorkspaceManager.sendSelectionContext(editor)` as a state transformer:
returns the broadcast params (`none` when the early return fires) and the
new `cachedSelectionState`.  With no active file it returns early; otherwise
it reads the selection (transaction state first, plain accessor on failure),
broadcasts, and overwrites the cache exactly when an active `MarkdownView`
is present, tagging it with that view and the current time. -/
def sendSelectionContextStep (ws : Workspace) (cache : Option CachedSelectionState)
    (now : Nat) (editor : Editor) :
    Option SelectionChangedParams × Option CachedSelectionState :=
  match ws.activeFile with
  | none => (none, cache)
  | some activeFilePath =>
    let pr :=
      match editor.cm with
      | some st => (txText st, txRange st)
      | none => plainRead editor
    let fileUrl := "file://" ++ getAbsolutePath activeFilePath ws.basePath
    let params : SelectionChangedParams :=
      { text := pr.1, filePath := some activeFilePath,
        fileUrl := some fileUrl, selection := pr.2 }
    let cache' :=
      match ws.activeViewMd with
      | some v => some (⟨pr.1, activeFilePath, fileUrl, pr.2, v, now⟩ : CachedSelectionState)
      | none => cache
    (some params, cache')

/-- A single-span document change `(chFrom, chTo) → inserted` modelling the
CodeMirror `ChangeSet` carried by a transaction. -/
structure ChangeSpec where
  chFrom : Nat
  chTo : Nat
  inserted : Nat
deriving DecidableEq, Repr

/-- Position mapping through a change (CodeMirror `changes.mapPos` with the
default association): positions before the change keep their offset,
positions after it shift by the length delta, positions inside the deleted
span map to the deletion start. -/
def mapPos (ch : ChangeSpec) (p : Nat) : Nat :=
  if p ≤ ch.chFrom then p
  else if ch.chTo ≤ p then p - (ch.chTo - ch.chFrom) + ch.inserted
  else ch.chFrom

/-- A decoration set for this extension holds at most one mark span;
`none` is `Decoration.none`. -/
def decoMap (ch : ChangeSpec) : Option (Nat × Nat) → Option (Nat × Nat)
  | none => none
  | some (f, t) => some (mapPos ch f, mapPos ch t)

/-- The transaction facts the extension's `update` reads: our
`setSelectionHighlight` effects in order (each `none` payload is the
"clear" effect value `null`), the document change when `tr.docChanged`,
and `tr.state.doc.length` (the resulting document's length). -/
structure Transaction where
  effects : List (Option (Nat × Nat))
  change : Option ChangeSpec
  docLen : Nat
deriving DecidableEq, Repr

/-- `selectionHighlightField`'s `update`: the first matching effect wins —
a `null` payload clears, a `(from, to)` payload installs the single mark
only under `from < to && to <= tr.state.doc.length` and otherwise clears;
with no effect, a document change maps the surviving decorations through
the change set. -/
def selectionHighlightUpdate (decorations : Option (Nat × Nat)) (tr : Transaction) :
    Option (Nat × Nat) :=
  match tr.effects.head? with
  | some none => none
  | some (some (f, t)) =>
    if f < t ∧ t ≤ tr.docLen then some (f, t) else none
  | none =>
    match tr.change with
    | some ch => if decorations ≠ none then decoMap ch decorations else decorations
    | none => decorations

/-- `focusChangeHandler` (the `EditorView.focusChangeEffect` callback):
gaining focus yields the clear effect (`setSelectionHighlight.of(null)`);
losing focus with a non-empty main selection yields the set effect for
exactly `(selection.from, selection.to)`; otherwise it yields no effect.
The outer `Option` is "no effect dispatched". -/
def focusChangeHandler (state : CMState) (focusing : Bool) :
    Option (Option (Nat × Nat)) :=
  if focusing then
    some none
  else
    if state.selFrom ≠ state.selTo then
      some (some (state.selFrom, state.selTo))
    else
      none

/-- The `(line, character)` pair the source computes from a linear offset:
the containing line's 1-based `number` minus one, and the offset minus the
line's starting offset. -/
def posOfOffset (ls : List (List Char)) (p : Nat) : Position :=
  ⟨(lineAt ls p).number - 1, p - (lineAt ls p).«from»⟩

/-- The guard of `getCurrentSelection`'s live branch: an active
`MarkdownView` whose `editor` is present, together with an active file. -/
def qualifyingB (ws : Workspace) : Bool :=
  match ws.activeViewMd with
  | some v => v.editor.isSome && ws.activeFile.isSome
  | none => false

/-- Concrete CodeMirror state: one-line document "hi", selection 0–2. -/
def stLive : CMState :=
  ⟨[['h', 'i']], 0, 2⟩

/-- Concrete editor whose transaction state is reachable. -/
def edLive : Editor :=
  ⟨some stLive, [['h', 'i']], ⟨0, 0⟩, ⟨0, 0⟩⟩

/-- Concrete editor whose transaction-state access fails (plain fallback). -/
def edPlain : Editor :=
  ⟨none, [['h', 'i']], ⟨0, 0⟩, ⟨0, 2⟩⟩

/-- Concrete live markdown view. -/
def vLive : MarkdownView :=
  ⟨some edLive⟩

/-- Concrete destroyed markdown view (its editor is unreachable). -/
def vDead : MarkdownView :=
  ⟨none⟩

/-- Concrete workspace with a qualifying focused markdown view. -/
def wsLive : Workspace :=
  ⟨some vLive, some "note.md", "/vault"⟩

/-- Concrete workspace with no active markdown view and no active file. -/
def wsNone : Workspace :=
  ⟨none, none, "/vault"⟩

/-- Concrete workspace whose active view is a non-markdown panel (so
`getActiveViewOfType(MarkdownView)` is null) while a file stays open. -/
def wsPanel : Workspace :=
  ⟨none, some "note.md", "/vault"⟩

/-- Concrete workspace with a markdown view but no active file. -/
def wsNoFile : Workspace :=
  ⟨some vLive, none, "/vault"⟩

/-- Concrete cached selection state whose view reference is still live. -/
def cacheLive : CachedSelectionState :=
  ⟨['o', 'l', 'd'], "old.md", "file:///vault/old.md",
    ⟨⟨0, 0⟩, ⟨0, 3⟩, false⟩, vLive, 7⟩

/-- Concrete cached selection state whose view reference is destroyed. -/
def cacheDead : CachedSelectionState :=
  ⟨['o', 'l', 'd'], "old.md", "file:///vault/old.md",
    ⟨⟨0, 0⟩, ⟨0, 3⟩, false⟩, vDead, 7⟩

/-- Concrete three-line document for the line-2, characters-5–10 scenario:
`lineStart` of line 2 is 4, so the selection offsets are 9–14. -/
def stLine2 : CMState :=
  ⟨[['A'], ['B'], ['a', 'b', 'c', 'd', 'e', 'f', 'g', 'h', 'i', 'j', 'k', 'l']], 9, 14⟩

/-- Editor, view and workspace wrapping `stLine2`. -/
def edLine2 : Editor :=
  ⟨some stLine2, [['A']], ⟨0, 0⟩, ⟨0, 0⟩⟩

/-- Markdown view wrapping `edLine2`. -/
def vLine2 : MarkdownView :=
  ⟨some edLine2⟩

/-- Workspace focused on `vLine2` with an active file. -/
def wsLine2 : Workspace :=
  ⟨some vLine2, some "n.md", "/vault"⟩

/-- Transaction carrying the clear effect. -/
def trClear : Transaction :=
  ⟨[none], none, 9⟩

/-- Transaction carrying a well-bounded set effect. -/
def trSet : Transaction :=
  ⟨[some (1, 3)], none, 5⟩

/-- Transaction carrying an out-of-order set effect. -/
def trBad : Transaction :=
  ⟨[some (3, 1)], none, 5⟩

/-- Effect-free transaction deleting offsets 1–4 of a 6-character document
(resulting length 3). -/
def trDel : Transaction :=
  ⟨[], some ⟨1, 4, 0⟩, 3⟩

/-- Effect-free transaction with no document change. -/
def trId : Transaction :=
  ⟨[], none, 9⟩

theorem docLength_single (l : List Char) : docLength [l] = l.length := by
  simp [docLength, joinLines]

theorem docLength_cons (l l' : List Char) (rest : List (List Char)) :
    docLength (l :: l' :: rest) = l.length + 1 + docLength (l' :: rest) := by
  simp only [docLength, joinLines, List.length_append, List.length_cons]
  omega

theorem lineAtGo_locate :
    ∀ (ls : List (List Char)) (num base k c : Nat),
      k < ls.length → c ≤ (ls.getD k []).length →
      lineAtGo ls num base (base + lineStart ls k + c) = ⟨num + k, base + lineStart ls k⟩
  | [], _, _, k, c => by
    intro hk _
    simp at hk
  | [l], num, base, 0, c => by
    intro _ _
    simp [lineAtGo, lineStart]
  | [l], _, _, k + 1, c => by
    intro hk _
    simp at hk
  | l :: l' :: rest, num, base, 0, c => by
    intro _ hc
    simp only [List.getD_cons_zero] at hc
    simp only [lineStart, lineAtGo, Nat.add_zero]
    rw [if_pos (by omega)]
  | l :: l' :: rest, num, base, k + 1, c => by
    intro hk hc
    have hk' : k < (l' :: rest).length := by simpa using hk
    have hc' : c ≤ ((l' :: rest).getD k []).length := by simpa using hc
    have ih := lineAtGo_locate (l' :: rest) (num + 1) (base + l.length + 1) k c hk' hc'
    simp only [lineStart, lineAtGo]
    rw [if_neg (by omega)]
    have harg : base + (l.length + 1 + lineStart (l' :: rest) k) + c
        = base + l.length + 1 + lineStart (l' :: rest) k + c := by omega
    rw [harg, ih]
    simp only [Line.mk.injEq]
    omega

theorem lineAtGo_spec :
    ∀ (ls : List (List Char)) (num base p : Nat),
      ls ≠ [] → base ≤ p → p ≤ base + docLength ls →
      ∃ k, k < ls.length ∧
        lineAtGo ls num base p = ⟨num + k, base + lineStart ls k⟩ ∧
        base + lineStart ls k ≤ p ∧
        p ≤ base + lineStart ls k + (ls.getD k []).length
  | [], _, _, _ => by
    intro h _ _
    exact absurd rfl h
  | [l], num, base, p => by
    intro _ hbase hp
    rw [docLength_single] at hp
    refine ⟨0, by simp, ?_, ?_, ?_⟩
    · simp [lineAtGo, lineStart]
    · simp only [lineStart, Nat.add_zero]
      exact hbase
    · simp only [lineStart, Nat.add_zero, List.getD_cons_zero]
      exact hp
  | l :: l' :: rest, num, base, p => by
    intro _ hbase hp
    by_cases h : p ≤ base + l.length
    · refine ⟨0, by simp, ?_, ?_, ?_⟩
      · simp only [lineAtGo, lineStart, Nat.add_zero]
        rw [if_pos h]
      · simp only [lineStart, Nat.add_zero]
        exact hbase
      · simp only [lineStart, Nat.add_zero, List.getD_cons_zero]
        exact h
    · rw [docLength_cons] at hp
      obtain ⟨k, hk, heq, h1, h2⟩ :=
        lineAtGo_spec (l' :: rest) (num + 1) (base + l.length + 1) p
          (by simp) (by omega) (by omega)
      refine ⟨k + 1, by simpa using hk, ?_, ?_, ?_⟩
      · simp only [lineAtGo]
        rw [if_neg h, heq]
        simp only [Line.mk.injEq, lineStart]
        omega
      · simp only [lineStart]
        omega
      · simp only [lineStart, List.getD_cons_succ]
        omega

theorem lineAt_locate (ls : List (List Char)) (k c : Nat)
    (hk : k < ls.length) (hc : c ≤ (ls.getD k []).length) :
    lineAt ls (lineStart ls k + c) = ⟨k + 1, lineStart ls k⟩ := by
  have h := lineAtGo_locate ls 1 0 k c hk hc
  simp only [Nat.zero_add] at h
  show lineAtGo ls 1 0 (lineStart ls k + c) = _
  rw [h]
  simp only [Line.mk.injEq, and_true]
  omega

theorem lineAt_spec (ls : List (List Char)) (p : Nat)
    (hne : ls ≠ []) (hp : p ≤ docLength ls) :
    ∃ k, k < ls.length ∧ lineAt ls p = ⟨k + 1, lineStart ls k⟩ ∧
      lineStart ls k ≤ p ∧ p ≤ lineStart ls k + (ls.getD k []).length := by
  obtain ⟨k, hk, heq, h1, h2⟩ :=
    lineAtGo_spec ls 1 0 p hne (Nat.zero_le _) (by omega)
  refine ⟨k, hk, ?_, by omega, by omega⟩
  show lineAtGo ls 1 0 p = _
  rw [heq]
  simp only [Line.mk.injEq, and_true]
  omega

theorem posOfOffset_inj (ls : List (List Char)) (hne : ls ≠ [])
    (p q : Nat) (hp : p ≤ docLength ls) (hq : q ≤ docLength ls)
    (h : posOfOffset ls p = posOfOffset ls q) : p = q := by
  obtain ⟨kp, hkp, heqp, hp1, hp2⟩ := lineAt_spec ls p hne hp
  obtain ⟨kq, hkq, heqq, hq1, hq2⟩ := lineAt_spec ls q hne hq
  simp only [posOfOffset, heqp, heqq, Position.mk.injEq] at h
  obtain ⟨h1, h2⟩ := h
  have hk : kp = kq := by omega
  subst hk
  omega

theorem sliceString_join :
    ∀ (ls : List (List Char)) (k a b : Nat),
      k < ls.length → a ≤ b → b ≤ (ls.getD k []).length →
      sliceString (joinLines ls) (lineStart ls k + a) (lineStart ls k + b) =
        ((ls.getD k []).drop a).take (b - a)
  | [], k, a, b => by
    intro hk _ _
    simp at hk
  | [l], 0, a, b => by
    intro _ _ _
    simp [sliceString, joinLines, lineStart]
  | [l], k + 1, a, b => by
    intro hk _ _
    simp at hk
  | l :: l' :: rest, 0, a, b => by
    intro _ hab hb
    simp only [List.getD_cons_zero] at hb ⊢
    simp only [lineStart, Nat.zero_add, sliceString, joinLines]
    rw [List.drop_append_eq_append_drop, List.take_append_eq_append_take]
    have hz : b - a - (l.drop a).length = 0 := by
      rw [List.length_drop]
      omega
    rw [hz]
    simp
  | l :: l' :: rest, k + 1, a, b => by
    intro hk hab hb
    have hk' : k < (l' :: rest).length := by simpa using hk
    have hb' : b ≤ ((l' :: rest).getD k []).length := by simpa using hb
    have ih := sliceString_join (l' :: rest) k a b hk' hab hb'
    simp only [List.getD_cons_succ]
    simp only [lineStart, joinLines, sliceString] at ih ⊢
    rw [List.drop_append_eq_append_drop]
    have hd : l.drop (l.length + 1 + lineStart (l' :: rest) k + a) = [] :=
      List.drop_eq_nil_of_le (by omega)
    rw [hd, List.nil_append]
    have h1 : l.length + 1 + lineStart (l' :: rest) k + a - l.length
        = lineStart (l' :: rest) k + a + 1 := by omega
    rw [h1, List.drop_succ_cons]
    have h2 : l.length + 1 + lineStart (l' :: rest) k + b
          - (l.length + 1 + lineStart (l' :: rest) k + a)
        = lineStart (l' :: rest) k + b - (lineStart (l' :: rest) k + a) := by omega
    rw [h2]
    exact ih

/-- C1 counterexample: at a concrete workspace whose focused markdown view
has a reachable transaction state, `getCurrentSelection` returns a live
snapshot with `fromCache = false`, yet the cache slot is left exactly as it
was (still `none`): the query does not overwrite `cachedSelectionState`
with a new `CachedSelectionState`. -/
theorem getCurrentSelection_does_not_write_cache :
    (getCurrentSelectionStep wsLive none).1
        = some ⟨['h', 'i'], "note.md", ⟨⟨0, 0⟩, ⟨0, 2⟩, false⟩, false⟩
    ∧ (getCurrentSelectionStep wsLive none).2 = none := by
  constructor <;> decide

/-- C1 (amended): the cache overwrite happens in `sendSelectionContext`,
not in `getCurrentSelection`: with an active file and an active
`MarkdownView` present, `sendSelectionContext` overwrites the cache slot
with a new `CachedSelectionState` built from its transaction-state read,
tagged with the active view and the current timestamp, while
`getCurrentSelection` on a successful transaction-state read returns a
snapshot with `fromCache = false` and leaves the cache slot unchanged. -/
theorem selection_cache_overwrite_policy
    (ws : Workspace) (cache : Option CachedSelectionState) (now : Nat)
    (v : MarkdownView) (ed : Editor) (st : CMState) (f : String)
    (hv : ws.activeViewMd = some v) (hed : v.editor = some ed)
    (hf : ws.activeFile = some f) (hcm : ed.cm = some st) :
    getCurrentSelectionStep ws cache
        = (some ⟨txText st, f, txRange st, false⟩, cache)
    ∧ sendSelectionContextStep ws cache now ed
        = (some ⟨txText st, some f,
              some ("file://" ++ getAbsolutePath f ws.basePath), txRange st⟩,
           some ⟨txText st, f, "file://" ++ getAbsolutePath f ws.basePath,
              txRange st, v, now⟩) := by
  constructor
  · simp [getCurrentSelectionStep, getCurrentSelection, hv, hed, hf, liveRead, hcm]
  · simp [sendSelectionContextStep, hf, hcm, hv]

/-- Witness instantiating the amended C1 statement at a concrete state. -/
theorem selection_cache_overwrite_policy_witness :
    getCurrentSelectionStep wsLive none
        = (some ⟨['h', 'i'], "note.md", ⟨⟨0, 0⟩, ⟨0, 2⟩, false⟩, false⟩, none)
    ∧ sendSelectionContextStep wsLive none 42 edLive
        = (some ⟨['h', 'i'], some "note.md", some "file:///vault/note.md",
              ⟨⟨0, 0⟩, ⟨0, 2⟩, false⟩⟩,
           some ⟨['h', 'i'], "note.md", "file:///vault/note.md",
              ⟨⟨0, 0⟩, ⟨0, 2⟩, false⟩, vLive, 42⟩) := by
  have h := selection_cache_overwrite_policy wsLive none 42 vLive edLive stLive
    "note.md" rfl rfl rfl rfl
  exact ⟨h.1.trans (by decide), h.2.trans (by decide)⟩

/-- C2: with no qualifying focused view but a non-null cache, a successful
transaction-state re-read through the cached view reference yields
`fromCache = false`; a failed re-read returns the stored cache fields
(text, filePath, selection) verbatim with `fromCache = true`; and every
read through a qualifying live focused view (transaction-state or
plain-accessor fallback) yields `fromCache = false`. -/
theorem getCurrentSelection_fromCache_policy (ws : Workspace) (c : CachedSelectionState) :
    (qualifyingB ws = false → ∀ ed st, c.view.editor = some ed → ed.cm = some st →
      getCurrentSelection ws (some c) = some ⟨txText st, c.filePath, txRange st, false⟩)
    ∧ (qualifyingB ws = false → c.view.editor.bind Editor.cm = none →
      getCurrentSelection ws (some c) = some ⟨c.text, c.filePath, c.selection, true⟩)
    ∧ (∀ v ed f, ws.activeViewMd = some v → v.editor = some ed → ws.activeFile = some f →
      ∃ s, getCurrentSelection ws (some c) = some s ∧ s.fromCache = false) := by
  have hcb : qualifyingB ws = false →
      getCurrentSelection ws (some c) = some (cacheRead c) := by
    intro hq
    cases hws : ws.activeViewMd with
    | none => simp [getCurrentSelection, hws]
    | some v =>
      cases hed : v.editor with
      | none =>
        cases hf : ws.activeFile <;> simp [getCurrentSelection, hws, hed, hf]
      | some ed =>
        cases hf : ws.activeFile with
        | none => simp [getCurrentSelection, hws, hed, hf]
        | some f => simp [qualifyingB, hws, hed, hf] at hq
  refine ⟨?_, ?_, ?_⟩
  · intro hq ed st hed hcm
    rw [hcb hq]
    simp [cacheRead, hed, hcm]
  · intro hq hrr
    rw [hcb hq]
    cases hed : c.view.editor with
    | none => simp [cacheRead, hed]
    | some ed =>
      rw [hed] at hrr
      simp only [Option.some_bind] at hrr
      simp [cacheRead, hed, hrr]
  · intro v ed f hv hed hf
    refine ⟨liveRead ed f, ?_, ?_⟩
    · simp [getCurrentSelection, hv, hed, hf]
    · cases hcm : ed.cm with
      | none => simp [liveRead, hcm]
      | some st => simp [liveRead, hcm]

/-- Witness for the `fromCache` policy: re-read success, re-read failure,
and a live read, at concrete states. -/
theorem getCurrentSelection_fromCache_policy_witness :
    (getCurrentSelection wsNone (some cacheLive)
        = some ⟨['h', 'i'], "old.md", ⟨⟨0, 0⟩, ⟨0, 2⟩, false⟩, false⟩)
    ∧ (getCurrentSelection wsNone (some cacheDead)
        = some ⟨['o', 'l', 'd'], "old.md", ⟨⟨0, 0⟩, ⟨0, 3⟩, false⟩, true⟩)
    ∧ (∃ s, getCurrentSelection wsLive (some cacheDead) = some s ∧ s.fromCache = false) := by
  refine ⟨?_, ?_, ?_⟩
  · have h := (getCurrentSelection_fromCache_policy wsNone cacheLive).1
      (by decide) edLive stLive rfl rfl
    exact h.trans (by decide)
  · have h := (getCurrentSelection_fromCache_policy wsNone cacheDead).2.1
      (by decide) (by decide)
    exact h.trans (by decide)
  · exact (getCurrentSelection_fromCache_policy wsLive cacheDead).2.2
      vLive edLive "note.md" rfl rfl rfl

/-- C3: when the tracker yields no snapshot with a truthy file path, the
broadcast params carry empty text, the active file's path (or null), and
the zero-width empty range at (0,0) — the selection field is that concrete
range, never null. -/
theorem sendCurrentFileContext_empty_shape (ws : Workspace)
    (cache : Option CachedSelectionState)
    (h : ∀ s, getCurrentSelection ws cache = some s → s.filePath = "") :
    sendCurrentFileContext ws cache =
      ⟨[], ws.activeFile,
        ws.activeFile.map (fun p => "file://" ++ getAbsolutePath p ws.basePath),
        ⟨⟨0, 0⟩, ⟨0, 0⟩, true⟩⟩ := by
  cases hg : getCurrentSelection ws cache with
  | none => simp [sendCurrentFileContext, hg, noSelParams]
  | some s =>
    have hs := h s hg
    simp [sendCurrentFileContext, hg, hs, noSelParams]

/-- Witness for the empty broadcast shape with no view and no cache. -/
theorem sendCurrentFileContext_empty_shape_witness :
    sendCurrentFileContext wsNone none =
      ⟨[], none, none, ⟨⟨0, 0⟩, ⟨0, 0⟩, true⟩⟩ := by
  have h := sendCurrentFileContext_empty_shape wsNone none
    (fun s hs => by simp [getCurrentSelection, wsNone] at hs)
  exact h.trans (by decide)

/-- C4: for every `SelectionRange` produced by a selection read — the
transaction-state path and the cached-view re-read path (both compute
`txRange`) and the plain-accessor fallback path (`plainRead`) —
`isEmpty = true` holds exactly when the start and end positions coincide. -/
theorem selectionRange_isEmpty_iff_start_eq_end (st : CMState) (ed : Editor)
    (hwf : CMWf st) :
    ((txRange st).isEmpty = true ↔ (txRange st).start = (txRange st).«end»)
    ∧ ((plainRead ed).2.isEmpty = true ↔
        (plainRead ed).2.start = (plainRead ed).2.«end») := by
  obtain ⟨hne, hle, hto⟩ := hwf
  constructor
  · by_cases h : st.selFrom = st.selTo
    · have htr : txRange st =
          ⟨posOfOffset st.lines st.selFrom, posOfOffset st.lines st.selFrom, true⟩ := by
        simp only [txRange, posOfOffset]
        rw [if_neg (fun hn => hn h)]
      rw [htr]
      simp
    · have htr : txRange st =
          ⟨posOfOffset st.lines st.selFrom, posOfOffset st.lines st.selTo, false⟩ := by
        simp only [txRange, posOfOffset]
        rw [if_pos h]
      rw [htr]
      constructor
      · intro hc
        exact Bool.noConfusion hc
      · intro heq
        have heq' : posOfOffset st.lines st.selFrom = posOfOffset st.lines st.selTo := heq
        exact absurd (posOfOffset_inj st.lines hne st.selFrom st.selTo
          (by omega) hto heq') h
  · by_cases h : (getSelection ed).length > 0
    · have hp : (plainRead ed).2 =
          ⟨⟨(cursorFrom ed).line, (cursorFrom ed).ch⟩,
            ⟨(cursorTo ed).line, (cursorTo ed).ch⟩, false⟩ := by
        simp only [plainRead]
        rw [if_pos h]
      rw [hp]
      constructor
      · intro hc
        exact Bool.noConfusion hc
      · intro heq
        exfalso
        have heq' : (⟨(cursorFrom ed).line, (cursorFrom ed).ch⟩ : Position)
            = ⟨(cursorTo ed).line, (cursorTo ed).ch⟩ := heq
        simp only [Position.mk.injEq] at heq'
        obtain ⟨h1, h2⟩ := heq'
        have hoff : offsetOfPos ed.lines (cursorFrom ed)
            = offsetOfPos ed.lines (cursorTo ed) := by
          simp only [offsetOfPos, h1, h2]
        have hempty : getSelection ed = [] := by
          simp only [getSelection, hoff, sliceString, Nat.sub_self, List.take_zero]
        rw [hempty] at h
        simp at h
    · have hp : (plainRead ed).2 =
          ⟨⟨(getCursor ed).line, (getCursor ed).ch⟩,
            ⟨(getCursor ed).line, (getCursor ed).ch⟩, true⟩ := by
        simp only [plainRead]
        rw [if_neg h]
      rw [hp]
      simp

/-- Witness for the `isEmpty` invariant at a concrete transaction state
and a concrete fallback editor. -/
theorem selectionRange_isEmpty_iff_start_eq_end_witness :
    (((txRange stLive).isEmpty = true ↔ (txRange stLive).start = (txRange stLive).«end»)
      ∧ ((plainRead edPlain).2.isEmpty = true ↔
          (plainRead edPlain).2.start = (plainRead edPlain).2.«end»)) :=
  selectionRange_isEmpty_iff_start_eq_end stLive edPlain
    (by refine ⟨?_, ?_, ?_⟩ <;> decide)

/-- C5: a successful transaction-state read converts the selection's linear
offsets to 0-based line/character pairs by locating the containing line and
subtracting its starting offset, and the snapshot text is the document
slice between them: a selection of characters `a`–`b` on line `k` yields
`{start:(k,a), end:(k,b), isEmpty:false}` with exactly that substring. -/
theorem getCurrentSelection_line_char_conversion
    (ws : Workspace) (cache : Option CachedSelectionState)
    (v : MarkdownView) (ed : Editor) (st : CMState) (f : String) (k a b : Nat)
    (hv : ws.activeViewMd = some v) (hed : v.editor = some ed)
    (hf : ws.activeFile = some f) (hcm : ed.cm = some st)
    (hk : k < st.lines.length)
    (hfrom : st.selFrom = lineStart st.lines k + a)
    (hto : st.selTo = lineStart st.lines k + b)
    (hab : a < b) (hb : b ≤ (st.lines.getD k []).length) :
    getCurrentSelection ws cache =
      some ⟨((st.lines.getD k []).drop a).take (b - a), f,
        ⟨⟨k, a⟩, ⟨k, b⟩, false⟩, false⟩ := by
  have hne : st.selFrom ≠ st.selTo := by
    rw [hfrom, hto]
    omega
  have htext : txText st = ((st.lines.getD k []).drop a).take (b - a) := by
    simp only [txText]
    rw [if_pos hne, hfrom, hto]
    exact sliceString_join st.lines k a b hk (by omega) hb
  have hrange : txRange st = ⟨⟨k, a⟩, ⟨k, b⟩, false⟩ := by
    simp only [txRange]
    rw [if_pos hne, hfrom, hto, lineAt_locate st.lines k a hk (by omega),
      lineAt_locate st.lines k b hk hb]
    simp only [SelectionRange.mk.injEq, Position.mk.injEq, and_true]
    refine ⟨⟨?_, ?_⟩, ?_, ?_⟩ <;> omega
  simp only [getCurrentSelection, hv, hed, hf, liveRead, hcm]
  rw [htext, hrange]

/-- Witness: the spec's concrete scenario — characters 5–10 on 0-based
line 2 — at a concrete three-line document. -/
theorem getCurrentSelection_line_char_conversion_witness :
    getCurrentSelection wsLine2 none =
      some ⟨['f', 'g', 'h', 'i', 'j'], "n.md", ⟨⟨2, 5⟩, ⟨2, 10⟩, false⟩, false⟩ := by
  have h := getCurrentSelection_line_char_conversion wsLine2 none vLine2 edLine2
    stLine2 "n.md" 2 5 10 rfl rfl rfl rfl (by decide) (by decide) (by decide)
    (by decide) (by decide)
  exact h.trans (by decide)

/-- C6: when the active view is a non-markdown panel while the cache is
non-null, the broadcast carries the cached (or successfully re-read)
selection of the previously focused view — its text, file path and
selection range — not the empty shape. -/
theorem sendCurrentFileContext_preserves_cached_selection
    (ws : Workspace) (c : CachedSelectionState)
    (hv : ws.activeViewMd = none) (hp : c.filePath ≠ "") :
    (∀ ed st, c.view.editor = some ed → ed.cm = some st →
      sendCurrentFileContext ws (some c) =
        ⟨txText st, some c.filePath,
          some ("file://" ++ getAbsolutePath c.filePath ws.basePath), txRange st⟩)
    ∧ (c.view.editor.bind Editor.cm = none →
      sendCurrentFileContext ws (some c) =
        ⟨c.text, some c.filePath,
          some ("file://" ++ getAbsolutePath c.filePath ws.basePath), c.selection⟩) := by
  constructor
  · intro ed st hed hcm
    simp [sendCurrentFileContext, getCurrentSelection, hv, cacheRead, hed, hcm, hp]
  · intro hrr
    cases hed : c.view.editor with
    | none => simp [sendCurrentFileContext, getCurrentSelection, hv, cacheRead, hed, hp]
    | some ed =>
      rw [hed] at hrr
      simp only [Option.some_bind] at hrr
      simp [sendCurrentFileContext, getCurrentSelection, hv, cacheRead, hed, hrr, hp]

/-- Witness: a panel-focused workspace re-emitting the cached selection,
for a still-live and for a destroyed cached view. -/
theorem sendCurrentFileContext_preserves_cached_selection_witness :
    (sendCurrentFileContext wsPanel (some cacheLive) =
      ⟨['h', 'i'], some "old.md", some "file:///vault/old.md",
        ⟨⟨0, 0⟩, ⟨0, 2⟩, false⟩⟩)
    ∧ (sendCurrentFileContext wsPanel (some cacheDead) =
      ⟨['o', 'l', 'd'], some "old.md", some "file:///vault/old.md",
        ⟨⟨0, 0⟩, ⟨0, 3⟩, false⟩⟩) := by
  constructor
  · have h := (sendCurrentFileContext_preserves_cached_selection wsPanel cacheLive
      rfl (by decide)).1 edLive stLive rfl rfl
    exact h.trans (by decide)
  · have h := (sendCurrentFileContext_preserves_cached_selection wsPanel cacheDead
      rfl (by decide)).2 (by decide)
    exact h.trans (by decide)

/-- C7: the overlay's focus transition — gaining focus dispatches the clear
effect and applying it empties the decoration field; losing focus with a
non-empty main selection dispatches the set effect for exactly
`(selection.from, selection.to)`; losing focus with an empty selection
dispatches nothing, and an effect-free, change-free update leaves the
decoration field unchanged. -/
theorem focus_transition_behaviour (st : CMState) (deco : Option (Nat × Nat))
    (tr : Transaction) :
    (focusChangeHandler st true = some none)
    ∧ (tr.effects = [none] → selectionHighlightUpdate deco tr = none)
    ∧ (st.selFrom ≠ st.selTo →
        focusChangeHandler st false = some (some (st.selFrom, st.selTo)))
    ∧ (st.selFrom = st.selTo → focusChangeHandler st false = none)
    ∧ (tr.effects = [] → tr.change = none → selectionHighlightUpdate deco tr = deco) := by
  refine ⟨?_, ?_, ?_, ?_, ?_⟩
  · simp [focusChangeHandler]
  · intro he
    simp [selectionHighlightUpdate, he]
  · intro h
    simp [focusChangeHandler, h]
  · intro h
    simp [focusChangeHandler, h]
  · intro he hc
    simp [selectionHighlightUpdate, he, hc]

/-- Witness for the focus-transition behaviour at concrete states,
transactions and decoration fields. -/
theorem focus_transition_behaviour_witness :
    (focusChangeHandler stLive true = some none)
    ∧ (selectionHighlightUpdate (some (0, 2)) trClear = none)
    ∧ (focusChangeHandler stLive false = some (some (0, 2)))
    ∧ (focusChangeHandler ⟨[['h', 'i']], 1, 1⟩ false = none)
    ∧ (selectionHighlightUpdate (some (0, 2)) trId = some (0, 2)) := by
  have h1 := (focus_transition_behaviour stLive (some (0, 2)) trClear).1
  have h2 := (focus_transition_behaviour stLive (some (0, 2)) trClear).2.1 rfl
  have h3 := (focus_transition_behaviour stLive (some (0, 2)) trClear).2.2.1
    (by decide)
  have h4 := (focus_transition_behaviour (⟨[['h', 'i']], 1, 1⟩ : CMState)
    (some (0, 2)) trId).2.2.2.1 rfl
  have h5 := (focus_transition_behaviour stLive (some (0, 2)) trId).2.2.2.2 rfl rfl
  exact ⟨h1, h2, h3.trans (by decide), h4, h5⟩

/-- C8: for a field holding a mark at `(f, t)` and a document change whose
deletion spans the whole mark, the update maps the decoration through the
change without failing and the mark collapses to the zero-width span at the
deletion start. -/
theorem decoration_collapses_on_spanning_delete
    (f t : Nat) (tr : Transaction) (ch : ChangeSpec)
    (he : tr.effects = []) (hc : tr.change = some ch)
    (hins : ch.inserted = 0) (hft : f ≤ t)
    (h1 : ch.chFrom ≤ f) (h2 : t ≤ ch.chTo) :
    selectionHighlightUpdate (some (f, t)) tr = some (ch.chFrom, ch.chFrom) := by
  have hu : selectionHighlightUpdate (some (f, t)) tr
      = some (mapPos ch f, mapPos ch t) := by
    simp [selectionHighlightUpdate, he, hc, decoMap]
  rw [hu]
  have hf : mapPos ch f = ch.chFrom := by
    simp only [mapPos]
    split_ifs <;> omega
  have ht : mapPos ch t = ch.chFrom := by
    simp only [mapPos]
    split_ifs <;> omega
  rw [hf, ht]

/-- Witness: deleting offsets 1–4 around the mark (2,3) collapses it to the
zero-width span at offset 1. -/
theorem decoration_collapses_on_spanning_delete_witness :
    selectionHighlightUpdate (some (2, 3)) trDel = some (1, 1) :=
  decoration_collapses_on_spanning_delete 2 3 trDel ⟨1, 4, 0⟩ rfl rfl rfl
    (by decide) (by decide) (by decide)

/-- C9: with a set-decoration effect carried by the transaction, the
decoration field's update is total and bounds-checked: it installs the
single mark `(f, t)` exactly when `f < t` and `t` is within the resulting
document's length, and yields the empty decoration set for every other
effect value. -/
theorem decoration_set_effect_bounds (deco : Option (Nat × Nat))
    (tr : Transaction) (f t : Nat)
    (h : tr.effects.head? = some (some (f, t))) :
    (f < t → t ≤ tr.docLen → selectionHighlightUpdate deco tr = some (f, t))
    ∧ (¬(f < t ∧ t ≤ tr.docLen) → selectionHighlightUpdate deco tr = none) := by
  constructor
  · intro h1 h2
    simp [selectionHighlightUpdate, h, h1, h2]
  · intro hn
    simp only [selectionHighlightUpdate, h]
    rw [if_neg hn]

/-- Witness: a well-bounded set effect installs the mark; an out-of-order
one yields the empty set. -/
theorem decoration_set_effect_bounds_witness :
    (selectionHighlightUpdate none trSet = some (1, 3))
    ∧ (selectionHighlightUpdate none trBad = none) := by
  refine ⟨?_, ?_⟩
  · exact (decoration_set_effect_bounds none trSet 1 3 rfl).1 (by decide) (by decide)
  · exact (decoration_set_effect_bounds none trBad 3 1 rfl).2 (by decide)

/-- C10: `sendSelectionContext` reached with no active file returns early
with no outbound notification and the cache slot exactly as it was; and the
cache slot is only ever written when an active `MarkdownView` is present. -/
theorem sendSelectionContext_frame (ws : Workspace)
    (cache : Option CachedSelectionState) (now : Nat) (ed : Editor) :
    (ws.activeFile = none → sendSelectionContextStep ws cache now ed = (none, cache))
    ∧ (ws.activeViewMd = none → (sendSelectionContextStep ws cache now ed).2 = cache) := by
  constructor
  · intro hf
    simp [sendSelectionContextStep, hf]
  · intro hv
    cases hf : ws.activeFile with
    | none => simp [sendSelectionContextStep, hf]
    | some f => simp [sendSelectionContextStep, hf, hv]

/-- Witness: no active file leaves the cache and emits nothing; no active
markdown view leaves the cache untouched. -/
theorem sendSelectionContext_frame_witness :
    (sendSelectionContextStep wsNoFile (some cacheLive) 42 edLive
        = (none, some cacheLive))
    ∧ ((sendSelectionContextStep wsPanel (some cacheLive) 42 edLive).2
        = some cacheLive) :=
  ⟨(sendSelectionContext_frame wsNoFile (some cacheLive) 42 edLive).1 rfl,
    (sendSelectionContext_frame wsPanel (some cacheLive) 42 edLive).2 rfl⟩
